import Mathlib

set_option maxRecDepth 8000

/- Verification of the `what` terminal-diagnostics tool.

   Terminal lines are modelled as `List Char` (the Rust code works on
   `String` values, i.e. sequences of characters); a captured snapshot is a
   `List (List Char)`, oldest line first, exactly as produced by
   `tmux_capture_lines`.  The 8-bit counters of `from_last_commands`
   (`commands_count : u8`, `prompt_hit : u8`) are modelled as `Nat` with
   explicit `% 256` where the source increments or adds, matching release-mode
   wrapping semantics. -/

/-- `PROMPT_REPLACE_STR` from `src/main.rs`: the neutral marker substituted
    for the user prompt. -/
def PROMPT_REPLACE_STR : List Char := ['>', '>', '>', ' ']

/-- Rust `str::replace` with an empty pattern: the empty pattern matches at
    every character boundary, so the replacement is inserted before every
    character and once at the end. -/
def replaceAllEmpty (repl : List Char) : List Char → List Char
  | [] => repl
  | c :: rest => repl ++ c :: replaceAllEmpty repl rest

/-- Worker for Rust `str::replace` with a non-empty pattern: leftmost,
    non-overlapping matches are replaced.  `fuel` is initialised to the length
    of the string; every step consumes at least one character, so the
    fuel-exhausted branch is unreachable. -/
def replaceAllGo (pat repl : List Char) : Nat → List Char → List Char
  | _, [] => []
  | 0, s => s
  | fuel + 1, c :: rest =>
    if pat.isPrefixOf (c :: rest) then
      repl ++ replaceAllGo pat repl fuel (List.drop (pat.length - 1) rest)
    else
      c :: replaceAllGo pat repl fuel rest

/-- Rust `str::replace`: replace every (leftmost, non-overlapping) occurrence
    of `pat` by `repl`.  Models `line.replace(&prompt, PROMPT_REPLACE_STR)`
    in `TerminalCapture::from_last_commands`. -/
def replaceAll (pat repl s : List Char) : List Char :=
  if pat = [] then replaceAllEmpty repl s else replaceAllGo pat repl s.length s

/-- The reverse scan of `TerminalCapture::from_last_commands`
    (src/main.rs:108-139), written as a recursion over the reversed line
    list; `break` becomes "stop recursing".  The result is the output buffer
    in push order (most recent first), exactly as the Rust `Vec` before its
    final `reverse`.

    Source loop body: on a line starting with the prompt, `prompt_hit += 1`
    (u8, hence `% 256`); if `prompt_hit > 1` push the line with the prompt
    replaced; if `prompt_hit == commands_count + 1` (u8 addition, hence
    `% 256`) break.  On any other line, push it verbatim when
    `prompt_hit > 0`. -/
def scanRev (prompt : List Char) (commands_count : Nat) :
    List (List Char) → Nat → List (List Char)
  | [], _ => []
  | line :: rest, prompt_hit =>
    if prompt.isPrefixOf line then
      let hit := (prompt_hit + 1) % 256
      let pushed :=
        if 1 < hit then [replaceAll prompt PROMPT_REPLACE_STR line] else []
      if hit = (commands_count + 1) % 256 then
        pushed
      else
        pushed ++ scanRev prompt commands_count rest hit
    else if 0 < prompt_hit then
      line :: scanRev prompt commands_count rest prompt_hit
    else
      scanRev prompt commands_count rest prompt_hit

/-- `TerminalCapture::from_last_commands`: scan the captured lines from last
    to first and return the collected buffer restored to chronological order
    (the trailing `last_commands_lines.reverse()` of the source).  The prompt
    string and the captured lines are parameters here because the source
    obtains them from `Self::prompt()` and `Self::tmux_capture_lines`. -/
def from_last_commands (prompt : List Char) (lines : List (List Char))
    (commands_count : Nat) : List (List Char) :=
  (scanRev prompt commands_count lines.reverse 0).reverse

/-- The lines a structured snapshot contributes for one command: the prompt
    line (prompt followed by the rest of that line) and then the command's
    output lines. -/
def blockLines (p : List Char) (sb : List Char × List (List Char)) :
    List (List Char) :=
  (p ++ sb.1) :: sb.2

/-- A synthetic snapshot: leading lines `B0`, then for each entry of `front`
    a prompt line and its output block, then the invoking prompt line
    (`p ++ sM`) and whatever follows it (`BM`). -/
def snapshotOf (p : List Char) (B0 : List (List Char))
    (front : List (List Char × List (List Char)))
    (sM : List Char) (BM : List (List Char)) : List (List Char) :=
  B0 ++ (front.map (blockLines p)).flatten ++ (p ++ sM) :: BM

/-- One segmented command block as it appears in the tool's output: the
    prompt line with every occurrence of the prompt replaced by the neutral
    marker, followed by the block's output lines. -/
def segBlock (p : List Char) (sb : List Char × List (List Char)) :
    List (List Char) :=
  replaceAll p PROMPT_REPLACE_STR (p ++ sb.1) :: sb.2

/-- The segmented output for a list of command blocks, oldest first. -/
def segBlocks (p : List Char)
    (blocks : List (List Char × List (List Char))) : List (List Char) :=
  (blocks.map (segBlock p)).flatten

/-- One structured block as visited by the reverse scan: output lines in
    reverse, then the block's prompt line. -/
def revBlock (p : List Char) (sb : List Char × List (List Char)) :
    List (List Char) :=
  sb.2.reverse ++ [p ++ sb.1]

/-- One segmented block in scan (reverse) order. -/
def segBlockRev (p : List Char) (sb : List Char × List (List Char)) :
    List (List Char) :=
  sb.2.reverse ++ [replaceAll p PROMPT_REPLACE_STR (p ++ sb.1)]

/-- A synthetic history of 255 bounded command blocks (plus the invoking
    prompt, 256 prompt-prefixed lines in total), with pairwise-distinct
    non-prompt output text between consecutive prompt occurrences; used to
    probe the 8-bit hit counter at `commands_count = 255`. -/
def wideFront : List (List Char × List (List Char)) :=
  (List.range 255).map fun j => (([] : List Char), [List.replicate (j + 1) 'b'])

/-- Modelled from the spec (claim C9's description): the same reverse scan
    but with the early-stop condition never met, exhausting the whole
    snapshot "as if the history were always insufficient".  This is the
    comparison definition for claim C9, written from the claim's words; the
    authoritative scan is `scanRev`. -/
def scanRevExhaust (prompt : List Char) : List (List Char) → Nat → List (List Char)
  | [], _ => []
  | line :: rest, prompt_hit =>
    if prompt.isPrefixOf line then
      let hit := (prompt_hit + 1) % 256
      (if 1 < hit then [replaceAll prompt PROMPT_REPLACE_STR line] else [])
        ++ scanRevExhaust prompt rest hit
    else if 0 < prompt_hit then
      line :: scanRevExhaust prompt rest prompt_hit
    else
      scanRevExhaust prompt rest prompt_hit

/-- A snapshot with 258 prompt-prefixed lines (prompt `"P"`), enough for the
    8-bit hit counter to wrap during the scan. -/
def wrapLines : List (List Char) := [['P'], ['P'], ['c']] ++ List.replicate 256 ['P']

/-! ### Streaming diagnostic client (`Diagnostics::write_to_screen`) -/

mutual
/-- A decoded JSON value, the shape `serde_json::Value` takes after a
    successful parse of an event payload.  Arrays and objects are first-order
    (mutually inductive) so every operation below is structurally
    recursive. -/
inductive JValue where
  | null
  | str (s : String)
  | num (n : Int)
  | bool (b : Bool)
  | arr (xs : JArray)
  | obj (fs : JObject)

/-- A JSON array. -/
inductive JArray where
  | nil
  | cons (hd : JValue) (tl : JArray)

/-- A JSON object: an ordered association list of fields. -/
inductive JObject where
  | nil
  | cons (key : String) (val : JValue) (tl : JObject)
end

/-- JSON string escaping as `serde_json` serialisation performs it for the
    characters that occur in this development (quote, backslash and the
    common control characters). -/
def jsonEscapeChar (c : Char) : List Char :=
  if c = '\x22' then ['\\', '\x22']
  else if c = '\\' then ['\\', '\\']
  else if c = '\n' then ['\\', 'n']
  else if c = '\x0d' then ['\\', 'r']
  else if c = '\t' then ['\\', 't']
  else [c]

/-- Escape a whole string for JSON serialisation. -/
def jsonEscape (s : String) : String :=
  String.mk (s.data.foldr (fun c acc => jsonEscapeChar c ++ acc) [])

mutual
/-- `serde_json::Value::to_string()`: serialise a JSON value back to JSON
    text; in particular `Null` renders as the text `null` and a string
    renders surrounded by quotes. -/
def JValue.render : JValue → String
  | .null => "null"
  | .str s => "\x22" ++ jsonEscape s ++ "\x22"
  | .num n => toString n
  | .bool b => cond b "true" "false"
  | .arr xs => "[" ++ xs.render ++ "]"
  | .obj fs => "\x7b" ++ fs.render ++ "\x7d"

/-- Serialise the comma-separated elements of a JSON array. -/
def JArray.render : JArray → String
  | .nil => ""
  | .cons x .nil => x.render
  | .cons x tl => x.render ++ "," ++ tl.render

/-- Serialise the comma-separated fields of a JSON object. -/
def JObject.render : JObject → String
  | .nil => ""
  | .cons k v .nil => "\x22" ++ jsonEscape k ++ "\x22:" ++ v.render
  | .cons k v tl => "\x22" ++ jsonEscape k ++ "\x22:" ++ v.render ++ "," ++ tl.render
end

/-- Look a key up in a JSON object. -/
def JObject.find : JObject → String → Option JValue
  | .nil, _ => none
  | .cons k v tl, key => if k = key then some v else JObject.find tl key

/-- `serde_json` `Value` indexing by field name (`value["key"]`): yields the
    field's value on an object that has the key, and `Null` otherwise. -/
def JValue.getField (v : JValue) (key : String) : JValue :=
  match v with
  | .obj fs => (fs.find key).getD .null
  | _ => .null

/-- Positional lookup in a JSON array. -/
def JArray.get? : JArray → Nat → Option JValue
  | .nil, _ => none
  | .cons x _, 0 => some x
  | .cons _ tl, n + 1 => tl.get? n

/-- `serde_json` `Value` indexing by position (`value[0]`): yields the
    element on an array that is long enough, and `Null` otherwise. -/
def JValue.index (v : JValue) (i : Nat) : JValue :=
  match v with
  | .arr xs => (xs.get? i).getD .null
  | _ => .null

/-- `serde_json`'s `Value == "literal"` comparison: true exactly on the
    equal `String` variant (`Null == "stop"` is false). -/
def JValue.eqStr (v : JValue) (s : String) : Bool :=
  match v with
  | .str t => t = s
  | _ => false

/-- Rust `str::trim_matches(c)`: remove every leading and trailing
    occurrence of the character `c`. -/
def trimMatches (c : Char) (s : String) : String :=
  String.mk (((s.data.dropWhile (fun d => d = c)).reverse.dropWhile
    (fun d => d = c)).reverse)

/-- The stream errors distinguished by `write_to_screen`'s `Err` arm:
    `InvalidStatusCode` carries the HTTP status (as `code.as_u16()` would
    yield it) and the response body — which the source never inspects — and
    every other transport error is summarised by its debug description. -/
inductive SseError where
  | invalidStatusCode (code : Nat) (body : String)
  | other (desc : String)
deriving DecidableEq

/-- One event delivered to `write_to_screen`'s consumption loop:
    `Event::Open`, `Event::Message` (whose payload is `none` when
    `serde_json::from_str` would fail to parse the data), or a stream
    error. -/
inductive SseEvent where
  | opened
  | message (payload : Option JValue)
  | failure (e : SseError)

/-- One observable terminal write performed by `write_to_screen`:
    `styled` for `queue(PrintStyledContent(...cyan()))` fragments and `raw`
    for plain `write!` output. -/
inductive ScreenWrite where
  | styled (s : String)
  | raw (s : String)
deriving DecidableEq

/-- The outcome of `write_to_screen`: normal return (`Ok(())`), an
    `anyhow::bail!` error, or a panic (the `.unwrap()` on a payload that is
    not parseable JSON); each records the writes made before finishing. -/
inductive ClientOutcome where
  | ok (written : List ScreenWrite)
  | failed (written : List ScreenWrite) (msg : String)
  | panicked (written : List ScreenWrite)
deriving DecidableEq

/-- Record one more leading write in an outcome. -/
def prependWrite (w : ScreenWrite) : ClientOutcome → ClientOutcome
  | .ok ws => .ok (w :: ws)
  | .failed ws m => .failed (w :: ws) m
  | .panicked ws => .panicked (w :: ws)

/-- The per-status messages of `write_to_screen`'s `InvalidStatusCode` arm,
    in source order (src/main.rs:271-278). -/
def statusErrorMessage (code : Nat) : String :=
  if code = 401 then "Incorrect API key provided"
  else if code = 429 then
    "Exceeded you current quota or too many requests, please check your plan and billin details"
  else if code = 403 then "Country, region, or territory not supported"
  else if code = 500 then "Server had an error while processing your request"
  else if code = 503 then "The engine is currently overloaded, please try again later"
  else "unexpected openai error occured"

/-- `Diagnostics::write_to_screen` (src/main.rs:241-288), as a function of
    the decoded event sequence.  `Open` events are skipped; a message whose
    payload did not parse panics (`.unwrap()`); otherwise
    `gpt_message = json["choices"][0]` is inspected: if its
    `finish_reason` equals `"stop"` the loop writes `"\r\n"` and breaks,
    else the fragment `gpt_message["delta"]["content"].to_string()
    .trim_matches(quote)` is written styled and the loop continues.  A
    stream error with an HTTP status bails with `"[status] message"`; any
    other stream error bails with its debug description. -/
def write_to_screen : List SseEvent → ClientOutcome
  | [] => .ok []
  | .opened :: rest => write_to_screen rest
  | .message none :: _ => .panicked []
  | .message (some json_data) :: rest =>
    let gpt_message := (json_data.getField "choices").index 0
    if (gpt_message.getField "finish_reason").eqStr "stop" then
      .ok [.raw "\r\n"]
    else
      prependWrite
        (.styled (trimMatches '\x22'
          (((gpt_message.getField "delta").getField "content").render)))
        (write_to_screen rest)
  | .failure (.invalidStatusCode code _body) :: _ =>
    .failed [] ("[" ++ toString code ++ "] " ++ statusErrorMessage code)
  | .failure (.other desc) :: _ =>
    .failed [] ("unexpected openai error response: " ++ desc)

/-- The concatenation of all styled (answer-fragment) text in a write
    sequence. -/
def styledText : List ScreenWrite → String
  | [] => ""
  | .styled s :: rest => s ++ styledText rest
  | .raw _ :: rest => styledText rest

/-- A well-formed incremental message payload carrying one content
    fragment: `{"choices":[{"delta":{"content": s},"finish_reason":null}]}`. -/
def fragmentPayload (s : String) : JValue :=
  .obj (.cons "choices"
    (.arr (.cons
      (.obj (.cons "delta" (.obj (.cons "content" (.str s) .nil))
        (.cons "finish_reason" .null .nil)))
      .nil))
    .nil)

/-- The terminal message payload:
    `{"choices":[{"delta":{},"finish_reason":"stop"}]}`. -/
def stopPayload : JValue :=
  .obj (.cons "choices"
    (.arr (.cons
      (.obj (.cons "delta" (.obj .nil)
        (.cons "finish_reason" (.str "stop") .nil)))
      .nil))
    .nil)

/-! ### Prompt detection, configuration bootstrap, Execute capture -/

/-- Rust `str::split(sep)` on a character list: split at every separator;
    `n` separators yield `n + 1` pieces (possibly empty). -/
def splitChar (sep : Char) : List Char → List (List Char)
  | [] => [[]]
  | c :: rest =>
    if c = sep then [] :: splitChar sep rest
    else
      match splitChar sep rest with
      | [] => [[c]]
      | piece :: ps => (c :: piece) :: ps

/-- Rust `str::split_terminator(sep)`: like `split`, but a trailing empty
    piece (produced when the string ends with the separator, or is empty) is
    dropped. -/
def splitTerminator (sep : Char) (s : List Char) : List (List Char) :=
  let ps := splitChar sep s
  if ps.getLast? = some [] then ps.dropLast else ps

/-- State of the escape-sequence stripper: plain text, just after an ESC
    byte, or inside a CSI sequence. -/
inductive AnsiState where
  | text
  | sawEsc
  | inCsi

/-- Worker for `strip_ansi_escapes::strip_str`: drop ESC-introduced
    sequences (a CSI sequence `ESC [ ... final-byte` in full; any other
    ESC-prefixed sequence as ESC plus one byte) and keep everything else. -/
def stripAnsiGo : AnsiState → List Char → List Char
  | _, [] => []
  | .text, c :: rest =>
    if c = '\x1b' then stripAnsiGo .sawEsc rest else c :: stripAnsiGo .text rest
  | .sawEsc, c :: rest =>
    if c = '[' then stripAnsiGo .inCsi rest else stripAnsiGo .text rest
  | .inCsi, c :: rest =>
    if 0x40 ≤ c.toNat ∧ c.toNat ≤ 0x7e then stripAnsiGo .text rest
    else stripAnsiGo .inCsi rest

/-- `strip_ansi_escapes::strip_str`, modelling the external crate used by
    `TerminalCapture::prompt` on the sequences that occur in rendered
    prompts. -/
def stripAnsi (s : List Char) : List Char := stripAnsiGo .text s

/-- The pure output-selection core of `TerminalCapture::prompt`
    (src/main.rs:215-229): from the shell subprocess's stdout, take
    `split_terminator('\n').last()` (erroring when there is none) and strip
    ANSI escapes from it.  Spawning the shell and the UTF-8 decoding are the
    surrounding I/O. -/
def prompt_from_stdout (stdout : List Char) : Except String (List Char) :=
  match (splitTerminator '\n' stdout).getLast? with
  | none => .error "could not get last line in terminal prompt output"
  | some raw_prompt => .ok (stripAnsi raw_prompt)

/-- Join lines with a single newline between consecutive lines (no trailing
    newline). -/
def joinLines : List (List Char) → List Char
  | [] => []
  | [l] => l
  | l :: rest => l ++ '\n' :: joinLines rest

/-! #### Configuration bootstrap (src/config.rs) -/

/-- `Configuration::DEFAULT_CONFIG_NAME`. -/
def DEFAULT_CONFIG_NAME : String := ".what.config.json"

/-- `Configuration` from src/config.rs: the parsed credential file. -/
structure Configuration where
  token : String

/-- A filesystem side effect performed by `Configuration::parse`. -/
inductive FsOp where
  | createEmpty (path : String)
deriving DecidableEq

/-- `Configuration::resolve_config_path`: the caller-supplied path when one
    is given, otherwise the dotfile in the HOME directory (erroring when
    HOME is unset).  `PathBuf::join` is modelled by inserting the path
    separator. -/
def resolve_config_path (path_hint : Option String) (home : Option String) :
    Except String String :=
  match path_hint with
  | some p => .ok p
  | none =>
    match home with
    | some h => .ok (h ++ "/" ++ DEFAULT_CONFIG_NAME)
    | none => .error "`$HOME` env variable is not set."

/-- `Configuration::parse`: resolve the path; when no file exists there,
    create it empty (`File::create`, recorded as an `FsOp`) and fail;
    otherwise read the content and decode it.  The JSON decoding performed
    by `serde_json::from_str` is the parameter `decode` (its failure is the
    decode error); `fs` returns a file's content, or `none` when the file
    does not exist.  (Error message texts are paraphrased.) -/
def Configuration.parse (decode : String → Option Configuration)
    (fs : String → Option String) (path_hint home : Option String) :
    Except String Configuration × List FsOp :=
  match resolve_config_path path_hint home with
  | .error e => (.error e, [])
  | .ok path =>
    match fs path with
    | none => (.error ("missing configuration file at " ++ path), [.createEmpty path])
    | some content =>
      match decode content with
      | some config => (.ok config, [])
      | none => (.error "invalid configuration file content", [])

/-! #### Execute capture (src/main.rs `TerminalCapture::from_command`) -/

/-- The observable result of the spawned subprocess: its exit-status
    success flag and raw stdout/stderr bytes. -/
structure ProcessOutput where
  success : Bool
  stdout : List Char
  stderr : List Char

/-- Drop a single trailing carriage return, as `BufRead::lines` does after
    popping a newline. -/
def stripTrailingCr (l : List Char) : List Char :=
  if l.getLast? = some '\x0d' then l.dropLast else l

/-- Rust `BufRead::lines` over a byte buffer: split on `'\n'`; every piece
    that ended with the newline also loses one trailing `'\r'`; a final
    piece not terminated by a newline is kept as is, and an empty final
    piece (buffer ended with a newline, or empty buffer) yields no line. -/
def ioLines (s : List Char) : List (List Char) :=
  let ps := splitChar '\n' s
  match ps.getLast? with
  | some [] => ps.dropLast.map stripTrailingCr
  | some l => ps.dropLast.map stripTrailingCr ++ [l]
  | none => []

/-- `TerminalCapture::from_command` (src/main.rs:141-166) after the spawn:
    `spawned` is `none` when the subprocess could not be spawned; with
    `force` unset a successful exit status aborts; otherwise the capture is
    the subprocess's stdout lines followed by its stderr lines.  (Error
    message texts are paraphrased; the `.expect` on non-UTF-8 output is
    outside this model, which works on decoded characters.) -/
def from_command (force : Bool) (spawned : Option ProcessOutput) :
    Except String (List (List Char)) :=
  match spawned with
  | none => .error "failed to spawn the process"
  | some result =>
    if !force && result.success then
      .error "process did not exit with error status code, aborting"
    else
      .ok (ioLines result.stdout ++ ioLines result.stderr)

/-! ### Helper lemmas about the reverse scan -/

theorem isPrefixOf_append_self (p s : List Char) : p.isPrefixOf (p ++ s) = true := by
  rw [List.isPrefixOf_iff_prefix]
  exact List.prefix_append p s

theorem reverse_flatten_map {α β : Type} (f : α → List β) (L : List α) :
    ((L.map f).flatten).reverse = (L.reverse.map (fun x => (f x).reverse)).flatten := by
  induction L with
  | nil => rfl
  | cons a L ih =>
    simp [List.reverse_append, List.map_append, List.flatten_append, ih]

theorem scanRev_skip_zero (p : List Char) (cc : Nat) (ls rest : List (List Char))
    (hfree : ∀ l ∈ ls, p.isPrefixOf l = false) :
    scanRev p cc (ls ++ rest) 0 = scanRev p cc rest 0 := by
  induction ls with
  | nil => rfl
  | cons a as ih =>
    have ha : p.isPrefixOf a = false := hfree a (List.mem_cons_self a as)
    rw [List.cons_append]
    simp only [scanRev, ha, Bool.false_eq_true, if_false, Nat.lt_irrefl]
    exact ih fun l hl => hfree l (List.mem_cons_of_mem a hl)

theorem scanRev_verbatim (p : List Char) (cc : Nat) (ls rest : List (List Char)) (h : Nat)
    (hpos : 0 < h) (hfree : ∀ l ∈ ls, p.isPrefixOf l = false) :
    scanRev p cc (ls ++ rest) h = ls ++ scanRev p cc rest h := by
  induction ls with
  | nil => rfl
  | cons a as ih =>
    have ha : p.isPrefixOf a = false := hfree a (List.mem_cons_self a as)
    rw [List.cons_append]
    simp only [scanRev, ha, Bool.false_eq_true, if_false, hpos, if_pos]
    rw [ih fun l hl => hfree l (List.mem_cons_of_mem a hl)]
    rfl

theorem scanRev_first (p s : List Char) (cc : Nat) (rest : List (List Char)) :
    scanRev p cc ((p ++ s) :: rest) 0 =
      if 1 = (cc + 1) % 256 then [] else scanRev p cc rest 1 := by
  have hp := isPrefixOf_append_self p s
  simp only [scanRev, hp, if_true, Nat.zero_add,
    Nat.mod_eq_of_lt (show 1 < 256 by omega), Nat.lt_irrefl, if_false, List.nil_append]

theorem scanRev_hit_step (p line : List Char) (cc : Nat) (rest : List (List Char)) (h : Nat)
    (hp : p.isPrefixOf line = true) (h1 : 1 ≤ h) (h255 : h + 1 ≤ 255)
    (hT : h + 1 ≠ (cc + 1) % 256) :
    scanRev p cc (line :: rest) h =
      replaceAll p PROMPT_REPLACE_STR line :: scanRev p cc rest (h + 1) := by
  have hm : (h + 1) % 256 = h + 1 := Nat.mod_eq_of_lt (by omega)
  simp only [scanRev, hp, if_true, hm]
  rw [if_pos (by omega : 1 < h + 1), if_neg hT]
  rfl

theorem scanRev_hit_stop (p line : List Char) (cc : Nat) (rest : List (List Char)) (h : Nat)
    (hp : p.isPrefixOf line = true) (h1 : 1 ≤ h) (h255 : h + 1 ≤ 255)
    (hT : h + 1 = (cc + 1) % 256) :
    scanRev p cc (line :: rest) h = [replaceAll p PROMPT_REPLACE_STR line] := by
  have hm : (h + 1) % 256 = h + 1 := Nat.mod_eq_of_lt (by omega)
  simp only [scanRev, hp, if_true, hm]
  rw [if_pos (by omega : 1 < h + 1)]
  rw [if_pos hT]

theorem scanRev_blocks_stop (p : List Char) (cc : Nat) :
    ∀ (R : List (List Char × List (List Char))) (tail : List (List Char)) (h : Nat),
      1 ≤ h → R ≠ [] → h + R.length = (cc + 1) % 256 → h + R.length ≤ 255 →
      (∀ sb ∈ R, ∀ l ∈ sb.2, p.isPrefixOf l = false) →
      scanRev p cc ((R.map (revBlock p)).flatten ++ tail) h
        = (R.map (segBlockRev p)).flatten := by
  intro R
  induction R with
  | nil => intro tail h _ hne; exact absurd rfl hne
  | cons sb R ih =>
    intro tail h hh _ hT hle hfree
    have hbody : ∀ l ∈ sb.2.reverse, p.isPrefixOf l = false := fun l hl =>
      hfree sb (List.mem_cons_self _ _) l (List.mem_reverse.mp hl)
    have hp : p.isPrefixOf (p ++ sb.1) = true := isPrefixOf_append_self p sb.1
    rw [List.map_cons, List.flatten_cons, revBlock, List.append_assoc, List.append_assoc,
      List.singleton_append,
      scanRev_verbatim p cc _ _ h (by omega) hbody]
    cases R with
    | nil =>
      rw [scanRev_hit_stop p _ cc _ h hp hh (by simpa using hle) (by simpa using hT)]
      simp [segBlockRev]
    | cons sb2 R2 =>
      have hlen : (sb :: sb2 :: R2).length = R2.length + 2 := by simp
      rw [scanRev_hit_step p _ cc _ h hp hh (by omega) (by omega)]
      rw [ih tail (h + 1) (by omega) (by simp) (by simp at hT ⊢; omega)
        (by simp at hle ⊢; omega)
        (fun b hb l hl => hfree b (List.mem_cons_of_mem sb hb) l hl)]
      simp [segBlockRev]

theorem scanRev_blocks_cont (p : List Char) (cc : Nat) :
    ∀ (R : List (List Char × List (List Char))) (tail : List (List Char)) (h : Nat),
      1 ≤ h → h + R.length ≤ 255 →
      ((cc + 1) % 256 = 0 ∨ h + R.length < (cc + 1) % 256) →
      (∀ sb ∈ R, ∀ l ∈ sb.2, p.isPrefixOf l = false) →
      scanRev p cc ((R.map (revBlock p)).flatten ++ tail) h
        = (R.map (segBlockRev p)).flatten ++ scanRev p cc tail (h + R.length) := by
  intro R
  induction R with
  | nil => intro tail h _ _ _ _; simp
  | cons sb R ih =>
    intro tail h hh hle hT hfree
    have hbody : ∀ l ∈ sb.2.reverse, p.isPrefixOf l = false := fun l hl =>
      hfree sb (List.mem_cons_self _ _) l (List.mem_reverse.mp hl)
    have hp : p.isPrefixOf (p ++ sb.1) = true := isPrefixOf_append_self p sb.1
    have hne : h + 1 ≠ (cc + 1) % 256 := by
      rcases hT with hT | hT
      · omega
      · simp at hT hle; omega
    rw [List.map_cons, List.flatten_cons, revBlock, List.append_assoc, List.append_assoc,
      List.singleton_append,
      scanRev_verbatim p cc _ _ h (by omega) hbody,
      scanRev_hit_step p _ cc _ h hp hh (by simp at hle; omega) hne,
      ih tail (h + 1) (by omega) (by simp at hle ⊢; omega)
        (by rcases hT with hT | hT; · exact Or.inl hT
            · right; simp at hT ⊢; omega)
        (fun b hb l hl => hfree b (List.mem_cons_of_mem sb hb) l hl)]
    have harith : h + 1 + R.length = h + (sb :: R).length := by simp; omega
    rw [harith]
    simp [segBlockRev]

theorem scanRev_mem (p : List Char) (cc : Nat) :
    ∀ (ls : List (List Char)) (h : Nat) (x : List Char), x ∈ scanRev p cc ls h →
      (∃ l, l ∈ ls ∧ p.isPrefixOf l = true ∧ x = replaceAll p PROMPT_REPLACE_STR l)
      ∨ (x ∈ ls ∧ p.isPrefixOf x = false) := by
  intro ls
  induction ls with
  | nil => intro h x hx; simp [scanRev] at hx
  | cons a as ih =>
    intro h x hx
    by_cases hp : p.isPrefixOf a = true
    · simp only [scanRev, hp, if_true] at hx
      rcases Classical.em ((h + 1) % 256 = (cc + 1) % 256) with hT | hT
      · rw [if_pos hT] at hx
        rcases Classical.em (1 < (h + 1) % 256) with hlt | hlt
        · rw [if_pos hlt] at hx
          rcases List.mem_singleton.mp hx with rfl
          exact Or.inl ⟨a, List.mem_cons_self a as, hp, rfl⟩
        · rw [if_neg hlt] at hx
          simp at hx
      · rw [if_neg hT] at hx
        rcases List.mem_append.mp hx with hx | hx
        · rcases Classical.em (1 < (h + 1) % 256) with hlt | hlt
          · rw [if_pos hlt] at hx
            rcases List.mem_singleton.mp hx with rfl
            exact Or.inl ⟨a, List.mem_cons_self a as, hp, rfl⟩
          · rw [if_neg hlt] at hx
            simp at hx
        · rcases ih _ x hx with ⟨l, hl, hpre, hrepl⟩ | ⟨hmem, hpre⟩
          · exact Or.inl ⟨l, List.mem_cons_of_mem a hl, hpre, hrepl⟩
          · exact Or.inr ⟨List.mem_cons_of_mem a hmem, hpre⟩
    · have hp' : p.isPrefixOf a = false := by
        cases hval : p.isPrefixOf a
        · rfl
        · exact absurd hval hp
      simp only [scanRev, hp', Bool.false_eq_true, if_false] at hx
      rcases Classical.em (0 < h) with hpos | hpos
      · rw [if_pos hpos] at hx
        rcases List.mem_cons.mp hx with rfl | hx
        · exact Or.inr ⟨List.mem_cons_self x as, hp'⟩
        · rcases ih _ x hx with ⟨l, hl, hpre, hrepl⟩ | ⟨hmem, hpre⟩
          · exact Or.inl ⟨l, List.mem_cons_of_mem a hl, hpre, hrepl⟩
          · exact Or.inr ⟨List.mem_cons_of_mem a hmem, hpre⟩
      · rw [if_neg hpos] at hx
        rcases ih _ x hx with ⟨l, hl, hpre, hrepl⟩ | ⟨hmem, hpre⟩
        · exact Or.inl ⟨l, List.mem_cons_of_mem a hl, hpre, hrepl⟩
        · exact Or.inr ⟨List.mem_cons_of_mem a hmem, hpre⟩

theorem blockLines_reverse (p : List Char) (sb : List Char × List (List Char)) :
    (blockLines p sb).reverse = revBlock p sb := by
  simp [blockLines, revBlock]

theorem segBlockRev_reverse (p : List Char) (sb : List Char × List (List Char)) :
    (segBlockRev p sb).reverse = segBlock p sb := by
  simp [segBlockRev, segBlock]

theorem snapshot_reverse (p sM : List Char) (B0 BM : List (List Char))
    (front : List (List Char × List (List Char))) (k : Nat) :
    (snapshotOf p B0 front sM BM).reverse
      = BM.reverse ++ ((p ++ sM) :: (((front.drop k).reverse.map (revBlock p)).flatten
          ++ (((front.take k).reverse.map (revBlock p)).flatten ++ B0.reverse))) := by
  have hsplit : front.reverse = (front.drop k).reverse ++ (front.take k).reverse := by
    conv_lhs => rw [← List.take_append_drop k front]
    rw [List.reverse_append]
  have hFrev : ((front.map (blockLines p)).flatten).reverse
      = ((front.drop k).reverse.map (revBlock p)).flatten
        ++ ((front.take k).reverse.map (revBlock p)).flatten := by
    rw [reverse_flatten_map]
    rw [List.map_congr_left (fun x _ => blockLines_reverse p x)]
    rw [hsplit, List.map_append, List.flatten_append]
  simp only [snapshotOf, List.reverse_append, List.reverse_cons, hFrev]
  simp [List.append_assoc]

/-- C1 (amended): for a snapshot in which the prompt occurs as a line prefix
    exactly `front.length + 1` times (the last occurrence being the prompt
    that invoked the tool) with non-prompt text between occurrences,
    segmenting for the last `N` commands with `1 ≤ N ≤ front.length` and
    `N ≤ 254` (so that `N + 1` is representable in the 8-bit hit counter)
    returns exactly the `N` most recent bounded command blocks, each
    consisting of its marker-replaced prompt line followed by exactly the
    lines between its bounding prompt lines, in original chronological
    order. -/
theorem c1_segmentation_last_commands (p sM : List Char) (B0 BM : List (List Char))
    (front : List (List Char × List (List Char))) (N : Nat)
    (h1 : 1 ≤ N) (h2 : N ≤ front.length) (h3 : N ≤ 254)
    (_hB0 : ∀ l ∈ B0, p.isPrefixOf l = false)
    (hfront : ∀ sb ∈ front, ∀ l ∈ sb.2, p.isPrefixOf l = false)
    (hBM : ∀ l ∈ BM, p.isPrefixOf l = false) :
    from_last_commands p (snapshotOf p B0 front sM BM) N
      = segBlocks p (front.drop (front.length - N)) := by
  have hBMr : ∀ l ∈ BM.reverse, p.isPrefixOf l = false := fun l hl =>
    hBM l (List.mem_reverse.mp hl)
  have hmod : (N + 1) % 256 = N + 1 := Nat.mod_eq_of_lt (by omega)
  have hlenR : ((front.drop (front.length - N)).reverse).length = N := by
    rw [List.length_reverse, List.length_drop]
    omega
  rw [from_last_commands, snapshot_reverse p sM B0 BM front (front.length - N),
    scanRev_skip_zero p N BM.reverse _ hBMr,
    scanRev_first,
    if_neg (by rw [hmod]; omega : ¬ 1 = (N + 1) % 256),
    scanRev_blocks_stop p N ((front.drop (front.length - N)).reverse) _ 1
      (Nat.le_refl 1)
      (by intro hcon; rw [hcon] at hlenR; simp at hlenR; omega)
      (by rw [hlenR, hmod]; omega)
      (by rw [hlenR]; omega)
      (fun sb hsb => hfront sb (List.mem_of_mem_drop (List.mem_reverse.mp hsb))),
    reverse_flatten_map, List.reverse_reverse,
    List.map_congr_left (fun x _ => segBlockRev_reverse p x)]
  rfl

/-- Closed witness for `c1_segmentation_last_commands`: a two-command
    snapshot with prompt `"$ "`, asking for the last command. -/
theorem c1_segmentation_last_commands_witness :
    from_last_commands ['$', ' ']
        (snapshotOf ['$', ' '] [['b', '0']]
          [(['l', 's'], [['o', '1']]), (['c', 'd'], [['o', '2']])]
          ['w'] [['t']]) 1
      = segBlocks ['$', ' ']
          ([(['l', 's'], [['o', '1']]), (['c', 'd'], [['o', '2']])].drop
            ([(['l', 's'], [['o', '1']]), (['c', 'd'], [['o', '2']])].length - 1)) :=
  c1_segmentation_last_commands ['$', ' '] ['w'] [['b', '0']] [['t']]
    [(['l', 's'], [['o', '1']]), (['c', 'd'], [['o', '2']])] 1
    (by omega) (by simp) (by omega) (by decide) (by decide) (by decide)

set_option maxHeartbeats 1600000 in
/-- C1 counterexample: with `M = 256` prompt occurrences (255 bounded blocks
    with pairwise-distinct non-prompt text between occurrences) and
    `N = 255 = M - 1`, the claimed segmentation fails: the 8-bit hit counter
    wraps to `0` on the 256th prompt hit, so the oldest requested block's
    marker line is dropped and the scan stops early.  The first two conjuncts
    check the claim's premises on this snapshot; the last refutes its
    conclusion. -/
theorem c1_segmentation_counterexample :
    (∀ sb ∈ wideFront, ∀ l ∈ sb.2, (['P'] : List Char).isPrefixOf l = false)
    ∧ (wideFront.map (fun sb => sb.2)).Nodup
    ∧ from_last_commands ['P'] (snapshotOf ['P'] [] wideFront [] []) 255
        ≠ segBlocks ['P'] (wideFront.drop (wideFront.length - 255)) := by
  refine ⟨by decide, ?_, by decide⟩
  rw [wideFront, List.map_map]
  apply List.Nodup.map_on ?_ (List.nodup_range 255)
  intro x _ y _ hf
  have hrep : List.replicate (x + 1) 'b' = List.replicate (y + 1) 'b' := by
    simpa using hf
  have hlen := congrArg List.length hrep
  simpa using hlen
theorem scanRev_all_verbatim (p : List Char) (cc : Nat) (ls : List (List Char)) (h : Nat)
    (hpos : 0 < h) (hfree : ∀ l ∈ ls, p.isPrefixOf l = false) :
    scanRev p cc ls h = ls := by
  have hx := scanRev_verbatim p cc ls [] h hpos hfree
  simpa [scanRev] using hx

/-- C2 (amended): during the reverse scan, the first line found to start with
    the prompt string is never appended — the output is independent of that
    line and of everything after it — and every returned line is either a
    prompt-prefixed line of the earlier history with EVERY occurrence of the
    prompt string replaced by the fixed neutral marker (Rust `str::replace`
    replaces all occurrences, not only the prefix), or a non-prompt line of
    the earlier history appended verbatim (such a line may still contain the
    prompt string in its interior). -/
theorem c2_prompt_replacement (p s s' : List Char) (history BM BM' : List (List Char))
    (cc : Nat)
    (hBM : ∀ l ∈ BM, p.isPrefixOf l = false)
    (hBM' : ∀ l ∈ BM', p.isPrefixOf l = false) :
    from_last_commands p (history ++ (p ++ s) :: BM) cc
      = from_last_commands p (history ++ (p ++ s') :: BM') cc
    ∧ ∀ x ∈ from_last_commands p (history ++ (p ++ s) :: BM) cc,
        (∃ l, l ∈ history ∧ p.isPrefixOf l = true
            ∧ x = replaceAll p PROMPT_REPLACE_STR l)
        ∨ (x ∈ history ∧ p.isPrefixOf x = false) := by
  have key : ∀ (t : List Char) (B : List (List Char)),
      (∀ l ∈ B, p.isPrefixOf l = false) →
      from_last_commands p (history ++ (p ++ t) :: B) cc
        = (if 1 = (cc + 1) % 256 then [] else scanRev p cc history.reverse 1).reverse := by
    intro t B hB
    rw [from_last_commands, List.reverse_append, List.reverse_cons, List.append_assoc,
      List.singleton_append,
      scanRev_skip_zero p cc B.reverse _ (fun l hl => hB l (List.mem_reverse.mp hl)),
      scanRev_first]
  constructor
  · rw [key s BM hBM, key s' BM' hBM']
  · intro x hx
    rw [key s BM hBM] at hx
    rcases Classical.em (1 = (cc + 1) % 256) with hT | hT
    · rw [if_pos hT] at hx
      simp at hx
    · rw [if_neg hT, List.mem_reverse] at hx
      rcases scanRev_mem p cc history.reverse 1 x hx with ⟨l, hl, hpre, hrepl⟩ | ⟨hmem, hpre⟩
      · exact Or.inl ⟨l, List.mem_reverse.mp hl, hpre, hrepl⟩
      · exact Or.inr ⟨List.mem_reverse.mp hmem, hpre⟩

/-- Closed witness for `c2_prompt_replacement`: prompt `"$ "`, history lines
    `["$ x", "y"]`, two different invoking-prompt suffixes and tails. -/
theorem c2_prompt_replacement_witness :
    from_last_commands ['$', ' ']
        ([['$', ' ', 'x'], ['y']] ++ (['$', ' '] ++ ['a']) :: []) 1
      = from_last_commands ['$', ' ']
          ([['$', ' ', 'x'], ['y']] ++ (['$', ' '] ++ ['b']) :: [['z']]) 1
    ∧ ∀ x ∈ from_last_commands ['$', ' ']
        ([['$', ' ', 'x'], ['y']] ++ (['$', ' '] ++ ['a']) :: []) 1,
        (∃ l, l ∈ [['$', ' ', 'x'], ['y']]
            ∧ (['$', ' '] : List Char).isPrefixOf l = true
            ∧ x = replaceAll ['$', ' '] PROMPT_REPLACE_STR l)
        ∨ (x ∈ [['$', ' ', 'x'], ['y']]
            ∧ (['$', ' '] : List Char).isPrefixOf x = false) :=
  c2_prompt_replacement ['$', ' '] ['a'] ['b'] [['$', ' ', 'x'], ['y']] [] [['z']] 1
    (by decide) (by decide)

/-- C2 counterexample: prompt `"$ "`, snapshot `["$ a$ b", "$ w"]`, `N = 1`.
    The single collected prompt line is appended with EVERY occurrence of
    `"$ "` replaced — the output is `[">>> a>>> b"]` — and differs from
    `[">>> a$ b"]`, the output the claim's "the prefix (and only the prefix)"
    wording predicts; the returned line moreover no longer matches the claim
    because replacement touched a non-prefix occurrence. -/
theorem c2_prompt_replacement_counterexample :
    from_last_commands ['$', ' '] [['$', ' ', 'a', '$', ' ', 'b'], ['$', ' ', 'w']] 1
      = [['>', '>', '>', ' ', 'a', '>', '>', '>', ' ', 'b']]
    ∧ from_last_commands ['$', ' '] [['$', ' ', 'a', '$', ' ', 'b'], ['$', ' ', 'w']] 1
      ≠ [['>', '>', '>', ' ', 'a', '$', ' ', 'b']] :=
  ⟨by decide, by decide⟩

/-- C3 (amended): when the snapshot holds fewer than `N + 1` prompt
    occurrences (`front.length + 1 ≤ N ≤ 255`), segmentation still returns a
    result (the embedding is a total function — no error) containing ALL
    bounded blocks; it never includes lines after the last prompt occurrence
    (`BM`), but it DOES include every line preceding the first prompt
    occurrence (`B0` is appended verbatim at the front of the result). -/
theorem c3_partial_history (p sM : List Char) (B0 BM : List (List Char))
    (front : List (List Char × List (List Char))) (N : Nat)
    (h2 : front.length + 1 ≤ N) (h3 : N ≤ 255)
    (hB0 : ∀ l ∈ B0, p.isPrefixOf l = false)
    (hfront : ∀ sb ∈ front, ∀ l ∈ sb.2, p.isPrefixOf l = false)
    (hBM : ∀ l ∈ BM, p.isPrefixOf l = false) :
    from_last_commands p (snapshotOf p B0 front sM BM) N
      = B0 ++ segBlocks p front := by
  have hBMr : ∀ l ∈ BM.reverse, p.isPrefixOf l = false := fun l hl =>
    hBM l (List.mem_reverse.mp hl)
  have hB0r : ∀ l ∈ B0.reverse, p.isPrefixOf l = false := fun l hl =>
    hB0 l (List.mem_reverse.mp hl)
  have hsnap := snapshot_reverse p sM B0 BM front 0
  rw [List.drop_zero, List.take_zero] at hsnap
  simp only [List.reverse_nil, List.map_nil, List.flatten_nil, List.nil_append] at hsnap
  rw [from_last_commands, hsnap,
    scanRev_skip_zero p N BM.reverse _ hBMr,
    scanRev_first,
    if_neg (by omega : ¬ 1 = (N + 1) % 256),
    scanRev_blocks_cont p N front.reverse B0.reverse 1 (Nat.le_refl 1)
      (by rw [List.length_reverse]; omega)
      (by rw [List.length_reverse]; omega)
      (fun sb hsb => hfront sb (List.mem_reverse.mp hsb)),
    scanRev_all_verbatim p N B0.reverse _ (by omega) hB0r,
    List.reverse_append, List.reverse_reverse,
    reverse_flatten_map, List.reverse_reverse,
    List.map_congr_left (fun x _ => segBlockRev_reverse p x)]
  rfl

/-- Closed witness for `c3_partial_history`: one bounded block, `N = 2`
    requested, leading line `"j"` before the first prompt. -/
theorem c3_partial_history_witness :
    from_last_commands ['$', ' ']
        (snapshotOf ['$', ' '] [['j']] [(['l', 's'], [['o']])] ['w'] [['t']]) 2
      = [['j']] ++ segBlocks ['$', ' '] [(['l', 's'], [['o']])] :=
  c3_partial_history ['$', ' '] ['w'] [['j']] [['t']] [(['l', 's'], [['o']])] 2
    (by simp) (by omega) (by decide) (by decide) (by decide)

/-- C3 counterexample: prompt `"$ "`, snapshot `["j", "$ ls", "o", "$ w"]`,
    `N = 2` (only 2 prompt occurrences, fewer than `N + 1 = 3`).  The result
    is `["j", ">>> ls", "o"]`: it contains `"j"`, a line that precedes EVERY
    prompt occurrence of the snapshot (in particular the first one counted
    from the end), refuting "the result never includes any line that precedes
    the first prompt occurrence". -/
theorem c3_partial_history_counterexample :
    from_last_commands ['$', ' '] [['j'], ['$', ' ', 'l', 's'], ['o'], ['$', ' ', 'w']] 2
      = [['j'], ['>', '>', '>', ' ', 'l', 's'], ['o']]
    ∧ ['j'] ∈ from_last_commands ['$', ' ']
        [['j'], ['$', ' ', 'l', 's'], ['o'], ['$', ' ', 'w']] 2 :=
  ⟨by decide, by decide⟩

theorem scanRev_eq_exhaust (p : List Char) :
    ∀ (ls : List (List Char)) (h : Nat),
      h + ls.countP (fun l => p.isPrefixOf l) ≤ 255 →
      scanRev p 255 ls h = scanRevExhaust p ls h := by
  intro ls
  induction ls with
  | nil => intro h _; rfl
  | cons a as ih =>
    intro h hcount
    by_cases hp : p.isPrefixOf a = true
    · rw [List.countP_cons, if_pos hp] at hcount
      have hmod : (h + 1) % 256 = h + 1 := Nat.mod_eq_of_lt (by omega)
      simp only [scanRev, scanRevExhaust, hp, if_true]
      rw [if_neg (by rw [hmod]; omega : ¬ (h + 1) % 256 = (255 + 1) % 256)]
      rw [hmod, ih (h + 1) (by omega)]
    · have hp' : p.isPrefixOf a = false := by
        cases hval : p.isPrefixOf a
        · rfl
        · exact absurd hval hp
      rw [List.countP_cons, if_neg (by simp [hp'])] at hcount
      by_cases hpos : 0 < h
      · simp only [scanRev, scanRevExhaust, hp', Bool.false_eq_true, if_false, hpos, if_pos]
        rw [ih h (by omega)]
      · simp only [scanRev, scanRevExhaust, hp', Bool.false_eq_true, if_false, hpos, if_false]
        exact ih h (by omega)

/-- C9 (amended): the requested command count and the prompt-hit counter are
    8-bit values, and the stop test compares the counter against
    `commands_count + 1` computed modulo 256.  For `commands_count = 255` the
    threshold wraps to `0`, so as long as the snapshot holds at most 255
    prompt-prefixed lines the counter never reaches it and the scan exhausts
    the whole snapshot, behaving exactly like a scan with no early stop.
    (The claim's "the early-stop condition can never be met" is NOT true
    unconditionally: with 256 or more prompt-prefixed lines the counter
    itself wraps to `0` on the 256th hit and the scan stops early — see the
    counterexample.) -/
theorem c9_counter_wraparound (p : List Char) (lines : List (List Char))
    (hcount : lines.countP (fun l => p.isPrefixOf l) ≤ 255) :
    from_last_commands p lines 255 = (scanRevExhaust p lines.reverse 0).reverse := by
  rw [from_last_commands,
    scanRev_eq_exhaust p lines.reverse 0 (by rw [List.countP_reverse]; omega)]

/-- Closed witness for `c9_counter_wraparound`: a two-prompt snapshot. -/
theorem c9_counter_wraparound_witness :
    from_last_commands ['P'] [['P'], ['x'], ['P']] 255
      = (scanRevExhaust ['P'] [['P'], ['x'], ['P']].reverse 0).reverse :=
  c9_counter_wraparound ['P'] [['P'], ['x'], ['P']] (by decide)

/-- C9 counterexample: with 258 prompt-prefixed lines in the snapshot
    (`wrapLines`), the early-stop condition IS met — the hit counter wraps to
    `0` on the 256th hit, matching the wrapped threshold — so the scan stops
    before exhausting the snapshot and its result differs from the
    never-stopping scan the claim describes (254 collected lines instead of
    255). -/
theorem c9_counter_wraparound_counterexample :
    from_last_commands ['P'] wrapLines 255
      ≠ (scanRevExhaust ['P'] wrapLines.reverse 0).reverse := by
  decide

/-- C4: for the event stream of fragments "Try ", "restarting ",
    "the service" followed by a message with `finish_reason = "stop"`, the
    client writes exactly those fragments (whose concatenation is
    "Try restarting the service") plus the closing line break, terminates on
    the stop message, and writes no fragment content after it — a trailing
    fragment event is never consumed. -/
theorem c4_stream_rendering :
    write_to_screen
        [.opened,
         .message (some (fragmentPayload "Try ")),
         .message (some (fragmentPayload "restarting ")),
         .message (some (fragmentPayload "the service")),
         .message (some stopPayload),
         .message (some (fragmentPayload "NEVER"))]
      = .ok [.styled "Try ", .styled "restarting ", .styled "the service", .raw "\r\n"]
    ∧ styledText [.styled "Try ", .styled "restarting ", .styled "the service", .raw "\r\n"]
      = "Try restarting the service" :=
  ⟨by decide, by decide⟩

/-- C5 (amended): a transport failure carrying an HTTP status fails with the
    fixed message of the source's status table, prefixed with the bracketed
    numeric status, independent of the response body and of any later
    events; unlisted statuses get the generic message, also carrying the
    numeric status. -/
theorem c5_status_messages (body : String) (rest : List SseEvent) :
    write_to_screen (.failure (.invalidStatusCode 401 body) :: rest)
      = .failed [] "[401] Incorrect API key provided"
    ∧ write_to_screen (.failure (.invalidStatusCode 403 body) :: rest)
      = .failed [] "[403] Country, region, or territory not supported"
    ∧ write_to_screen (.failure (.invalidStatusCode 429 body) :: rest)
      = .failed []
          "[429] Exceeded you current quota or too many requests, please check your plan and billin details"
    ∧ write_to_screen (.failure (.invalidStatusCode 500 body) :: rest)
      = .failed [] "[500] Server had an error while processing your request"
    ∧ write_to_screen (.failure (.invalidStatusCode 503 body) :: rest)
      = .failed [] "[503] The engine is currently overloaded, please try again later"
    ∧ ∀ code : Nat, code ∉ ([401, 403, 429, 500, 503] : List Nat) →
        write_to_screen (.failure (.invalidStatusCode code body) :: rest)
          = .failed [] ("[" ++ toString code ++ "] " ++ "unexpected openai error occured") := by
  refine ⟨rfl, rfl, rfl, rfl, rfl, ?_⟩
  intro code hcode
  simp only [List.mem_cons, List.not_mem_nil, or_false, not_or] at hcode
  obtain ⟨h1, h2, h3, h4, h5⟩ := hcode
  simp [write_to_screen, statusErrorMessage, h1, h2, h3, h4, h5]

/-- Closed witness for `c5_status_messages` at statuses 401 and 418. -/
theorem c5_status_messages_witness :
    write_to_screen [.failure (.invalidStatusCode 401 "ignored body")]
      = .failed [] "[401] Incorrect API key provided"
    ∧ write_to_screen [.failure (.invalidStatusCode 418 "ignored body")]
      = .failed [] ("[" ++ toString (418 : Nat) ++ "] " ++ "unexpected openai error occured") :=
  ⟨(c5_status_messages "ignored body" []).1,
   (c5_status_messages "ignored body" []).2.2.2.2.2 418 (by decide)⟩

/-- C5 counterexample: for status 429 the client's failure message is
    "[429] Exceeded you current quota or too many requests, please check
    your plan and billin details", which is not the claim's exact message
    "Exceeded current quota or too many requests" (the source text differs
    and every mapped message carries the bracketed status prefix). -/
theorem c5_status_messages_counterexample :
    write_to_screen [.failure (.invalidStatusCode 429 "BODY")]
      = .failed []
          "[429] Exceeded you current quota or too many requests, please check your plan and billin details"
    ∧ "[429] Exceeded you current quota or too many requests, please check your plan and billin details"
      ≠ "Exceeded current quota or too many requests" :=
  ⟨by decide, by decide⟩

/-- C6 (amended): a message payload that is not parseable JSON panics the
    operation (the `.unwrap()`), with nothing further consumed; but a
    payload that parses while LACKING the expected choice/delta/
    finish_reason fields does NOT abort — the missing fields index to
    `null`, the client writes the literal text `null` as a styled fragment
    and continues consuming the remaining events. -/
theorem c6_malformed_payload (rest : List SseEvent) :
    write_to_screen (.message none :: rest) = .panicked []
    ∧ write_to_screen (.message (some (JValue.obj .nil)) :: rest)
      = prependWrite (.styled "null") (write_to_screen rest) :=
  ⟨rfl, rfl⟩

/-- C6 counterexample: on a parseable payload with none of the expected
    fields (`{}`) the operation does not abort: it renders `null`, then
    continues and consumes the following fragment and stop events. -/
theorem c6_malformed_payload_counterexample :
    write_to_screen
        [.message (some (JValue.obj .nil)),
         .message (some (fragmentPayload "X")),
         .message (some stopPayload)]
      = .ok [.styled "null", .styled "X", .raw "\r\n"] := by
  decide


theorem splitChar_no_sep (sep : Char) (a : List Char) (h : sep ∉ a) :
    splitChar sep a = [a] := by
  induction a with
  | nil => rfl
  | cons c a ih =>
    have hc : ¬ c = sep := fun hcc => h (hcc ▸ List.mem_cons_self c a)
    have ih' := ih fun hm => h (List.mem_cons_of_mem c hm)
    simp [splitChar, hc, ih']

theorem splitChar_sep_append (sep : Char) (a rest : List Char) (h : sep ∉ a) :
    splitChar sep (a ++ sep :: rest) = a :: splitChar sep rest := by
  induction a with
  | nil => simp [splitChar]
  | cons c a ih =>
    have hc : ¬ c = sep := fun hcc => h (hcc ▸ List.mem_cons_self c a)
    have ih' := ih fun hm => h (List.mem_cons_of_mem c hm)
    simp [splitChar, hc, ih']

theorem splitChar_joinLines (ls : List (List Char)) (hne : ls ≠ [])
    (hl : ∀ l ∈ ls, '\n' ∉ l) :
    splitChar '\n' (joinLines ls) = ls := by
  induction ls with
  | nil => exact absurd rfl hne
  | cons a ls ih =>
    cases ls with
    | nil => exact splitChar_no_sep '\n' a (hl a (List.mem_cons_self a []))
    | cons b tl =>
      have hstep : joinLines (a :: b :: tl) = a ++ '\n' :: joinLines (b :: tl) := rfl
      rw [hstep, splitChar_sep_append '\n' a _ (hl a (List.mem_cons_self a _)),
        ih (by simp) (fun l hm => hl l (List.mem_cons_of_mem a hm))]

theorem splitChar_joinLines_concat (ls : List (List Char)) (hne : ls ≠ [])
    (hl : ∀ l ∈ ls, '\n' ∉ l) :
    splitChar '\n' (joinLines ls ++ ['\n']) = ls ++ [[]] := by
  induction ls with
  | nil => exact absurd rfl hne
  | cons a ls ih =>
    cases ls with
    | nil =>
      have hstep : joinLines [a] ++ ['\n'] = a ++ '\n' :: [] := rfl
      rw [hstep, splitChar_sep_append '\n' a [] (hl a (List.mem_cons_self a []))]
      rfl
    | cons b tl =>
      have hstep : joinLines (a :: b :: tl) ++ ['\n']
          = a ++ '\n' :: (joinLines (b :: tl) ++ ['\n']) := by
        simp [joinLines]
      rw [hstep, splitChar_sep_append '\n' a _ (hl a (List.mem_cons_self a _)),
        ih (by simp) (fun l hm => hl l (List.mem_cons_of_mem a hm))]
      rfl

/-- C7 (amended): the prompt taken from the shell subprocess's multi-line
    output is the LAST line after discarding one trailing line terminator
    (`split_terminator` semantics) — not the last non-empty line — with ANSI
    escape sequences stripped from it before use.  With a single trailing
    newline this is the last line of the output; a doubled trailing newline
    makes the detected prompt empty (see the counterexample). -/
theorem c7_prompt_selection (ls : List (List Char)) (lastLine : List Char)
    (hl : ∀ l ∈ ls, '\n' ∉ l) (hlast : ls.getLast? = some lastLine) :
    prompt_from_stdout (joinLines ls ++ ['\n']) = .ok (stripAnsi lastLine)
    ∧ (lastLine ≠ [] → prompt_from_stdout (joinLines ls) = .ok (stripAnsi lastLine)) := by
  have hne : ls ≠ [] := by
    intro hcon
    rw [hcon] at hlast
    cases hlast
  constructor
  · unfold prompt_from_stdout splitTerminator
    rw [splitChar_joinLines_concat ls hne hl]
    simp [List.getLast?_concat, List.dropLast_concat, hlast]
  · intro hni
    unfold prompt_from_stdout splitTerminator
    rw [splitChar_joinLines ls hne hl]
    simp [hlast, hni]

/-- Closed witness for `c7_prompt_selection`: a banner line followed by a
    colour-styled prompt line and a trailing newline; the detected prompt is
    the styled line with its CSI sequence stripped. -/
theorem c7_prompt_selection_witness :
    prompt_from_stdout (joinLines [['b'], ['\x1b', '[', '3', '2', 'm', 'P']] ++ ['\n'])
      = .ok (stripAnsi ['\x1b', '[', '3', '2', 'm', 'P'])
    ∧ stripAnsi ['\x1b', '[', '3', '2', 'm', 'P'] = ['P'] :=
  ⟨(c7_prompt_selection [['b'], ['\x1b', '[', '3', '2', 'm', 'P']]
      ['\x1b', '[', '3', '2', 'm', 'P'] (by decide) rfl).1,
   by decide⟩

/-- C7 counterexample: on subprocess output `"pr\n\n"` the last NON-EMPTY
    line is `"pr"`, but the code takes `split_terminator('\n').last()`,
    which is the empty line before the final newline — the detected prompt
    is empty, so a trailing blank line DOES become the detected prompt. -/
theorem c7_prompt_selection_counterexample :
    prompt_from_stdout ['p', 'r', '\n', '\n'] = .ok []
    ∧ (Except.ok ([] : List Char) : Except String (List Char)) ≠ .ok ['p', 'r'] :=
  ⟨rfl, by simp⟩

/-- C8: whenever the resolved configuration file does not exist, an empty
    file is created at the resolved path and the load fails with an error —
    independent of the decoder, so no default token can be produced; the
    resolved path is the caller-supplied path when one is given, and
    otherwise the dotfile in the HOME directory. -/
theorem c8_config_bootstrap (decode : String → Option Configuration)
    (fs : String → Option String) (path_hint home : Option String)
    (path h : String)
    (hres : resolve_config_path path_hint home = .ok path)
    (hmiss : fs path = none) :
    Configuration.parse decode fs path_hint home
      = (.error ("missing configuration file at " ++ path), [.createEmpty path])
    ∧ resolve_config_path (some path) home = .ok path
    ∧ resolve_config_path none (some h) = .ok (h ++ "/" ++ DEFAULT_CONFIG_NAME) := by
  refine ⟨?_, rfl, rfl⟩
  simp [Configuration.parse, hres, hmiss]

/-- Closed witness for `c8_config_bootstrap`: an explicitly supplied path to
    a missing file. -/
theorem c8_config_bootstrap_witness :
    Configuration.parse (fun _ => none) (fun _ => none) (some "cfg.json") none
      = (.error ("missing configuration file at " ++ "cfg.json"),
          [.createEmpty "cfg.json"])
    ∧ resolve_config_path (some "cfg.json") none = .ok "cfg.json"
    ∧ resolve_config_path none (some "home")
      = .ok ("home" ++ "/" ++ DEFAULT_CONFIG_NAME) :=
  c8_config_bootstrap (fun _ => none) (fun _ => none) (some "cfg.json") none
    "cfg.json" "home" rfl rfl

/-- C10: with `force = false`, a subprocess that exits successfully makes
    the capture return an error (no lines are captured); and whenever the
    capture does succeed, the captured lines are exactly the subprocess's
    stdout lines followed by its stderr lines, in that order. -/
theorem c10_execute_capture (r : ProcessOutput) (hs : r.success = true) :
    from_command false (some r)
      = .error "process did not exit with error status code, aborting"
    ∧ ∀ (force : Bool) (r' : ProcessOutput) (ls : List (List Char)),
        from_command force (some r') = .ok ls →
        ls = ioLines r'.stdout ++ ioLines r'.stderr := by
  constructor
  · simp [from_command, hs]
  · intro force r' ls hok
    by_cases hc : (!force && r'.success) = true
    · simp [from_command, hc] at hok
    · simp [from_command, hc] at hok
      exact hok.symm

/-- Closed witness for `c10_execute_capture`: a successful subprocess with
    `force = false` aborts the capture. -/
theorem c10_execute_capture_witness :
    from_command false (some ⟨true, ['o', '\n'], ['e']⟩)
      = .error "process did not exit with error status code, aborting" :=
  (c10_execute_capture ⟨true, ['o', '\n'], ['e']⟩ rfl).1

/-- Closed witness for `c6_malformed_payload` at an empty remainder. -/
theorem c6_malformed_payload_witness :
    write_to_screen [.message none] = .panicked []
    ∧ write_to_screen [.message (some (JValue.obj .nil))]
      = prependWrite (.styled "null") (write_to_screen []) :=
  c6_malformed_payload []
